import Mathlib

/-!
# Verification of the WaterDashboard export pipeline (`water_export_cli.py`)

A shallow embedding, in Lean 4, of the normalization and incremental-merge
core of `water_export_cli.py`:

* `parse_river_dt` — the two-format time-label parser (regex search for
  `(\d{1,2})h\s+(\d{1,2})/(\d{1,2})` then `(\d{1,2})h(\d{1,2})/(\d{1,2})`,
  with `datetime` construction failures caught and falling through);
* `classify_exceed` / `calculate_alert_diff` — alert tier and threshold
  distance (Python truthiness of thresholds is modelled exactly:
  a `0.0` threshold is falsy);
* `get_first_num` — defensive threshold-field parsing;
* the placeholder-token value parsing of the river series;
* the fetch-window computation from the existing dataset;
* the window filtering of river/lake records;
* the concat / drop-duplicates(keep last) / sort incremental merge.

Numeric provider values are modelled as `ℚ` (the Python floats involved in
the claims are exact decimals and no claim depends on binary rounding).
`round(x, 2)` is modelled as `roundTo2`; no verified statement depends on
the tie-breaking direction of the rounding.  Strings are modelled as
`List Char`; Python `re.search` is modelled by a position scan with the
exact backtracking preference order of the two concrete patterns.
-/

/-! ## Characters, Python `str.strip`, and the two regex patterns -/

/-- ASCII view of Python's regex class `\d` (the labels at issue are ASCII). -/
def isDig (c : Char) : Bool := c.isDigit

/-- Numeric value of an ASCII digit character. -/
def dval (c : Char) : ℕ := c.toNat - 48

/-- ASCII view of Python's regex class `\s` / `str.strip` whitespace. -/
def isWs (c : Char) : Bool :=
  c = ' ' || c = '\t' || c = '\n' || c = '\r' || c = Char.ofNat 11 || c = Char.ofNat 12

/-- Python `str.strip()`: drop leading and trailing whitespace. -/
def pyStrip (l : List Char) : List Char :=
  ((l.dropWhile isWs).reverse.dropWhile isWs).reverse

/-- First-success iteration: the backtracking order of a regex alternative list. -/
def firstSome {α β : Type} (f : α → Option β) : List α → Option β
  | [] => none
  | a :: as =>
    match f a with
    | some b => some b
    | none => firstSome f as

/-- The candidate parses of `(\d{1,2})` at the head of the input, in the
backtracking preference order of a greedy bounded repetition: two digits
first, then one digit.  Each candidate is (group value, remaining input). -/
def numCands : List Char → List (ℕ × List Char)
  | [] => []
  | [c1] => if isDig c1 then [(dval c1, [])] else []
  | c1 :: c2 :: rest =>
    if isDig c1 then
      if isDig c2 then
        [(10 * dval c1 + dval c2, rest), (dval c1, c2 :: rest)]
      else [(dval c1, c2 :: rest)]
    else []

/-- Whitespace `\s+` at the head of the input: at least one whitespace character, greedy.
(The following pattern element is always `\d`, which no whitespace character
satisfies, so the greedy parse is the only relevant one.) -/
def consumeWs1 : List Char → Option (List Char)
  | [] => none
  | c :: cs => if isWs c then some (cs.dropWhile isWs) else none

/-- Pattern A after hour group and `h` and `\s+`, at `(\d{1,2})/(\d{1,2})`:
the day group has been read; require `/` then the month group. -/
def afterDayA (hour day : ℕ) : List Char → Option (ℕ × ℕ × ℕ)
  | [] => none
  | c :: cs5 =>
    if c = '/' then firstSome (fun w => some (hour, day, w.1)) (numCands cs5)
    else none

/-- Pattern A after the hour group: require `h`, then `\s+`, then day`/`month. -/
def afterHourA (hour : ℕ) : List Char → Option (ℕ × ℕ × ℕ)
  | [] => none
  | c :: cs2 =>
    if c = 'h' then
      match consumeWs1 cs2 with
      | some cs3 => firstSome (fun q => afterDayA hour q.1 q.2) (numCands cs3)
      | none => none
    else none

/-- Match of pattern A = `(\d{1,2})h\s+(\d{1,2})/(\d{1,2})` anchored at the
current position; groups are (hour, day, month). -/
def matchAAt (cs : List Char) : Option (ℕ × ℕ × ℕ) :=
  firstSome (fun p => afterHourA p.1 p.2) (numCands cs)

/-- Search of pattern A, as `re.search` does it: leftmost matching position wins. -/
def searchA : List Char → Option (ℕ × ℕ × ℕ)
  | [] => none
  | c :: cs =>
    match matchAAt (c :: cs) with
    | some g => some g
    | none => searchA cs

/-- Pattern B after hour group and `h` and minute group, at `/(\d{1,2})`. -/
def afterMinB (hour minute : ℕ) : List Char → Option (ℕ × ℕ × ℕ)
  | [] => none
  | c :: cs4 =>
    if c = '/' then firstSome (fun w => some (hour, minute, w.1)) (numCands cs4)
    else none

/-- Pattern B after the hour group: require `h`, then minute group, then `/`day. -/
def afterHourB (hour : ℕ) : List Char → Option (ℕ × ℕ × ℕ)
  | [] => none
  | c :: cs2 =>
    if c = 'h' then firstSome (fun q => afterMinB hour q.1 q.2) (numCands cs2)
    else none

/-- Match of pattern B = `(\d{1,2})h(\d{1,2})/(\d{1,2})` anchored at the
current position; groups are (hour, minute, day). -/
def matchBAt (cs : List Char) : Option (ℕ × ℕ × ℕ) :=
  firstSome (fun p => afterHourB p.1 p.2) (numCands cs)

/-- Search of pattern B, as `re.search` does it: leftmost matching position wins. -/
def searchB : List Char → Option (ℕ × ℕ × ℕ)
  | [] => none
  | c :: cs =>
    match matchBAt (c :: cs) with
    | some g => some g
    | none => searchB cs

/-! ## `datetime` construction and `parse_river_dt` -/

/-- Gregorian leap year, as Python's `calendar`/`datetime` computes it
(`%` below is Euclidean remainder, which agrees with Python's `%`). -/
def isLeap (y : ℤ) : Bool := (y % 4 == 0 && y % 100 != 0) || y % 400 == 0

/-- Length of month `m` of year `y` (Python `calendar.monthrange` semantics). -/
def daysInMonth (y : ℤ) (m : ℕ) : ℕ :=
  if m = 2 then (if isLeap y then 29 else 28)
  else if m = 4 ∨ m = 6 ∨ m = 9 ∨ m = 11 then 30
  else 31

/-- A timezone-aware `datetime` truncated to minute resolution.
`tzOffsetHours` records the civil timezone the code attaches
(`Asia/Ho_Chi_Minh` = UTC+7, no DST). -/
structure PyDateTime where
  year : ℤ
  month : ℕ
  day : ℕ
  hour : ℕ
  minute : ℕ
  tzOffsetHours : ℤ
  deriving DecidableEq, Repr

/-- The civil calendar date of a `PyDateTime` (`datetime.date()`). -/
structure PyDate where
  y : ℤ
  m : ℕ
  d : ℕ
  deriving DecidableEq, Repr

/-- Python `datetime(year, month, day, hour, minute)` followed by
`.replace(tzinfo=TZ_LOCAL)`: `some` on the validity ranges Python accepts,
`none` where Python raises `ValueError`. -/
def mkDatetime (y : ℤ) (month day hour minute : ℕ) : Option PyDateTime :=
  if 1 ≤ y ∧ y ≤ 9999 ∧ 1 ≤ month ∧ month ≤ 12 ∧ 1 ≤ day ∧ day ≤ daysInMonth y month ∧
      hour ≤ 23 ∧ minute ≤ 59
  then some ⟨y, month, day, hour, minute, 7⟩
  else none

/-- The year-boundary adjustment of Case A: parsing December data in January
uses the previous year. -/
def yearAdj (current_year : ℤ) (month nowMonth : ℕ) : ℤ :=
  if month = 12 ∧ nowMonth = 1 then current_year - 1 else current_year

/-- Case A of `parse_river_dt`, applied to the stripped label: on a pattern-A
match, build the datetime with minute 0 and the year-boundary adjustment;
`none` when the pattern does not match or `datetime` raises. -/
def riverCaseA (clean : List Char) (current_year : ℤ) (nowMonth : ℕ) : Option PyDateTime :=
  match searchA clean with
  | some (hour, day, month) => mkDatetime (yearAdj current_year month nowMonth) month day hour 0
  | none => none

/-- Case B of `parse_river_dt`, applied to the stripped label: on a pattern-B
match, build the datetime with the caller's current local month and the
literal reference year; `none` when the pattern does not match or
`datetime` raises. -/
def riverCaseB (clean : List Char) (current_year : ℤ) (nowMonth : ℕ) : Option PyDateTime :=
  match searchB clean with
  | some (hour, minute, day) => mkDatetime current_year nowMonth day hour minute
  | none => none

/-- The function `parse_river_dt(lbl, current_year)` of `water_export_cli.py`.
`nowMonth` stands for `datetime.now(TZ_LOCAL).month`, the only component of
the current instant the function reads.  Case A's `except ValueError: pass`
makes control fall through to Case B both when pattern A does not match and
when it matches but the date is not constructible. -/
def parse_river_dt (lbl : List Char) (current_year : ℤ) (nowMonth : ℕ) : Option PyDateTime :=
  if lbl = [] then none
  else
    match riverCaseA (pyStrip lbl) current_year nowMonth with
    | some dt => some dt
    | none => riverCaseB (pyStrip lbl) current_year nowMonth

/-! ## Alert classification and threshold distance -/

/-- One threshold test of `classify_exceed`: Python `thr and level >= thr`.
A missing threshold (`None`) and a threshold equal to `0.0` are both falsy. -/
def thrHit (lv : ℚ) (thr : Option ℚ) : Bool :=
  match thr with
  | none => false
  | some t => decide (t ≠ 0) && decide (t ≤ lv)

/-- The function `classify_exceed(level, bd1, bd2, bd3, hist)` of `water_export_cli.py`. -/
def classify_exceed (level bd1 bd2 bd3 hist : Option ℚ) : ℕ :=
  match level with
  | none => 0
  | some lv =>
    if thrHit lv hist then 4
    else if thrHit lv bd3 then 3
    else if thrHit lv bd2 then 2
    else if thrHit lv bd1 then 1
    else 0

/-- Model of Python `round(x, 2)` over `ℚ`.  (Python rounds ties to even;
no verified statement below depends on the tie-breaking direction.) -/
def roundTo2 (x : ℚ) : ℚ := ((round (100 * x) : ℤ) : ℚ) / 100

/-- The function `calculate_alert_diff(level, val, bd1, bd2, bd3, hist)` of
`water_export_cli.py`.  `level` is the already-computed tier.  A subtraction
against a missing (`None`) threshold raises `TypeError` in Python, which the
bare `except` turns into `None`: modelled by `Option.map`.  The tier-0 branch
`elif bd1:` uses Python truthiness, so `bd1 = 0.0` selects the final
`return None`. -/
def calculate_alert_diff (level : ℕ) (val bd1 bd2 bd3 hist : Option ℚ) : Option ℚ :=
  match val with
  | none => none
  | some v =>
    if level = 4 then hist.map (fun t => roundTo2 (v - t))
    else if level = 3 then bd3.map (fun t => roundTo2 (v - t))
    else if level = 2 then bd2.map (fun t => roundTo2 (v - t))
    else if level = 1 then bd1.map (fun t => roundTo2 (v - t))
    else
      match bd1 with
      | some t => if t ≠ 0 then some (roundTo2 (v - t)) else none
      | none => none

/-! ## Threshold-field parsing (`get_first_num`) and river value tokens -/

/-- The function `get_first_num(d, key)` of `water_export_cli.py`.  The field `d.get(key)`
is modelled as `Option (List Char)` (`none` = key absent / JSON null) and
Python `float(...)` as the parameter `floatFn` (`none` = raises, caught by
the bare `except`).  An absent or falsy (empty) field yields `None`; the
first comma-separated component is parsed; a parsed value `≤ 0` yields
`None`. -/
def get_first_num (floatFn : List Char → Option ℚ) (v : Option (List Char)) : Option ℚ :=
  match v with
  | none => none
  | some s =>
    if s = [] then none
    else
      match floatFn ((s.splitOn ',').headI) with
      | some val => if 0 < val then some val else none
      | none => none

/-- The placeholder sentinel set of the river value comprehension:
`["-", "null", "", "NULL"]`. -/
def placeholderTok (s : List Char) : Bool :=
  s = ['-'] || s = ['n', 'u', 'l', 'l'] || s = [] || s = ['N', 'U', 'L', 'L']

/-- One token of the river `value` sequence:
`float(x.strip()) if x.strip() not in ["-", "null", "", "NULL"] else None`.
The outer `Option` is the exception layer (an unparseable non-placeholder
token raises out of the comprehension); the inner `Option` is the value
(`some none` = Python `None` in the list). -/
def parseRiverValueTok (floatFn : List Char → Option ℚ) (x : List Char) : Option (Option ℚ) :=
  if placeholderTok (pyStrip x) then some none
  else (floatFn (pyStrip x)).map some

/-- The whole river value list: split the comma-joined sequence and parse
each token. -/
def riverValues (floatFn : List Char → Option ℚ) (raw : List Char) : List (Option (Option ℚ)) :=
  (raw.splitOn ',').map (parseRiverValueTok floatFn)

/-! ## Fetch window planning and window filtering -/

/-- Python `date` strict comparison (lexicographic on year, month, day). -/
def dateLtB (a b : PyDate) : Bool :=
  decide (a.y < b.y ∨ (a.y = b.y ∧ (a.m < b.m ∨ (a.m = b.m ∧ a.d < b.d))))

/-- Python `date - timedelta(days=1)`. -/
def datePred (dt : PyDate) : PyDate :=
  if 1 < dt.d then ⟨dt.y, dt.m, dt.d - 1⟩
  else if 1 < dt.m then ⟨dt.y, dt.m - 1, daysInMonth dt.y (dt.m - 1)⟩
  else ⟨dt.y - 1, 12, 31⟩

/-- Python `date - timedelta(days=n)`. -/
def subDays : ℕ → PyDate → PyDate
  | 0, dt => dt
  | n + 1, dt => subDays n (datePred dt)

/-- The fetch-window computation of `water_export_cli.py` (module top level):
`DEFAULT_END_DATE = today`; with no usable prior timestamp the start is
`today - 6 days`; with a prior latest date not after `today` the start is
that date; a prior latest date after `today` (clock drift) falls back to
`today - 6 days`. -/
def planWindow (existingLatest : Option PyDate) (today : PyDate) : PyDate × PyDate :=
  match existingLatest with
  | none => (subDays 6 today, today)
  | some last => if dateLtB today last then (subDays 6 today, today) else (last, today)

/-- The `datetime.date()` view of a `PyDateTime`. -/
def dtDate (dt : PyDateTime) : PyDate := ⟨dt.year, dt.month, dt.day⟩

/-- The per-pair river filter of `main` (lines 351–358): parse the label;
skip the pair when parsing fails (`if not dt_local: continue`) or when the
parsed date precedes the window start.  `some dt` = the pair is emitted with
timestamp `dt`. -/
def riverWindowFilter (lbl : List Char) (current_year : ℤ) (nowMonth : ℕ)
    (startDate : PyDate) : Option PyDateTime :=
  match parse_river_dt lbl current_year nowMonth with
  | none => none
  | some dt => if dateLtB (dtDate dt) startDate then none else some dt

/-- The per-record lake filter of `main` (lines 404–416), with the derived
update timestamp (`ms_to_dt_local(...)`) as input.  The outer `Option` is
record retention (`none` = `continue`); the inner `Option` is the emitted
timestamp field (a record with no derivable timestamp is retained with a
null timestamp and is never window-filtered). -/
def lakeWindowFilter (ts : Option PyDateTime) (startDate : PyDate) :
    Option (Option PyDateTime) :=
  match ts with
  | some dt => if dateLtB (dtDate dt) startDate then none else some (some dt)
  | none => some none

/-! ## The incremental merge -/

/-- One persisted row, with the columns the merge logic touches:
the dedup key columns (`type`, `Mã trạm/LakeCode`, `Thời gian (UTC)`),
the remaining sort columns (`Tên sông/Lưu vực`, `Trạm/Hồ`) and a
representative payload column (`Mực nước (m)`). -/
structure Row where
  type : String
  id : String
  name : String
  basin : String
  ts : String
  level : Option ℚ
  deriving DecidableEq, Repr

/-- The dedup key of `drop_duplicates`: `(type, id, timestamp)`. -/
def rowKey (r : Row) : String × String × String := (r.type, r.id, r.ts)

/-- The sort key of `sort_values`: `(type, basin, name, timestamp)`,
compared lexicographically column by column. -/
def ordKey (r : Row) : String ×ₗ String ×ₗ String ×ₗ String :=
  toLex (r.type, toLex (r.basin, toLex (r.name, r.ts)))

/-- The row ordering used by both `sort_values` calls. -/
def leRow (a b : Row) : Prop := ordKey a ≤ ordKey b

instance : DecidableRel leRow := fun a b => inferInstanceAs (Decidable (ordKey a ≤ ordKey b))

instance : IsTotal Row leRow := ⟨fun a b => le_total (ordKey a) (ordKey b)⟩

instance : IsTrans Row leRow := ⟨fun _ _ _ hab hbc => le_trans hab hbc⟩

/-- Pandas `df.sort_values([...])` on the merge ordering key. -/
def sortRows (l : List Row) : List Row := l.insertionSort leRow

/-- Pandas `drop_duplicates(subset=key, keep="last")`: a row survives iff no later
row of the list has the same dedup key; relative order is preserved. -/
def keepLastDedup : List Row → List Row
  | [] => []
  | r :: rs =>
    if ∃ s ∈ rs, rowKey s = rowKey r then keepLastDedup rs
    else r :: keepLastDedup rs

/-- The incremental merge of `main` (lines 439–491): the incoming batch is
sorted; when no prior dataset exists it is written as is; otherwise the old
rows are concatenated before the incoming ones, deduplicated on
`(type, id, timestamp)` keeping the last occurrence, and re-sorted. -/
def mergeDataset (existing : Option (List Row)) (incoming : List Row) : List Row :=
  match existing with
  | none => sortRows incoming
  | some ex => sortRows (keepLastDedup (ex ++ sortRows incoming))

/-! ## Concrete labels, rows and spec-side predicates used by the claims -/

/-- Set-and-exceeded as the code actually tests it: the threshold holds a
value, that value is nonzero (Python truthiness), and the level reaches it. -/
def thrSetGE (lv : ℚ) (thr : Option ℚ) : Prop := ∃ t, thr = some t ∧ t ≠ 0 ∧ t ≤ lv

/-- Decimal rendering of `n ≤ 99` with no leading zero padding, as the
provider writes hour/day/month/minute numbers. -/
def render (n : ℕ) : List Char :=
  if n < 10 then [Nat.digitChar n] else [Nat.digitChar (n / 10), Nat.digitChar (n % 10)]

/-- A canonical Format-A label `"{h}h {d}/{m}"`. -/
def labelA (h d m : ℕ) : List Char :=
  render h ++ ('h' :: ' ' :: (render d ++ ('/' :: render m)))

/-- A canonical Format-B label `"{h}h{mi}/{d}"`. -/
def labelB (h mi d : ℕ) : List Char :=
  render h ++ ('h' :: (render mi ++ ('/' :: render d)))

/-- The concrete label `"1h30/12 2h 31/2"`: pattern A matches it (at the
second segment, with groups hour 2, day 31, month 2 — an unconstructible
date), yet the parser's result comes from pattern B on the first segment. -/
def lblAX : List Char :=
  ['1', 'h', '3', '0', '/', '1', '2', ' ', '2', 'h', ' ', '3', '1', '/', '2']

/-- A row repeated verbatim in an incoming batch (same dedup key twice). -/
def rDup : Row := ⟨"River", "012", "Station A", "Basin X", "2024-11-15 00:00", some 12⟩

/-- An existing row and an incoming row sharing the dedup key
`(River, 012, 2024-11-15 00:00)` but carrying different levels. -/
def rOld : Row := ⟨"River", "012", "Station A", "Basin X", "2024-11-15 00:00", some 12⟩

/-- Incoming correction for the same key as `rOld`, with level 13. -/
def rNew : Row := ⟨"River", "012", "Station A", "Basin X", "2024-11-15 00:00", some 13⟩


/-! ## Claim C2: alert tier classification -/

lemma thrHit_iff (lv : ℚ) (thr : Option ℚ) : thrHit lv thr = true ↔ thrSetGE lv thr := by
  cases thr with
  | none => simp [thrHit, thrSetGE]
  | some t => simp [thrHit, thrSetGE]

/-- C2, counterexample: the claim reads "set" as mere presence, so with
`level = 5` and `historical = 0.0` present it demands tier 4; the code's
`if hist and level >= hist` treats the `0.0` threshold as falsy and yields
tier 0. -/
theorem c2_counterexample :
    classify_exceed (some 5) none none none (some 0) = 0 ∧
    classify_exceed (some 5) none none none (some 0) ≠ 4 := by
  constructor <;> decide

/-- C2 (amended): with "set" meaning present *and nonzero* (Python
truthiness), the tier cascade is exactly as claimed: absent level gives
tier 0; tier 4 iff historical is set-and-reached; else tier 3 iff tier3 is
set-and-reached; else tier 2; else tier 1; else tier 0. -/
theorem c2_classify_spec (lv : ℚ) (bd1 bd2 bd3 hist : Option ℚ) :
    classify_exceed none bd1 bd2 bd3 hist = 0 ∧
    (classify_exceed (some lv) bd1 bd2 bd3 hist = 4 ↔ thrSetGE lv hist) ∧
    (classify_exceed (some lv) bd1 bd2 bd3 hist = 3 ↔
      ¬thrSetGE lv hist ∧ thrSetGE lv bd3) ∧
    (classify_exceed (some lv) bd1 bd2 bd3 hist = 2 ↔
      ¬thrSetGE lv hist ∧ ¬thrSetGE lv bd3 ∧ thrSetGE lv bd2) ∧
    (classify_exceed (some lv) bd1 bd2 bd3 hist = 1 ↔
      ¬thrSetGE lv hist ∧ ¬thrSetGE lv bd3 ∧ ¬thrSetGE lv bd2 ∧ thrSetGE lv bd1) ∧
    (classify_exceed (some lv) bd1 bd2 bd3 hist = 0 ↔
      ¬thrSetGE lv hist ∧ ¬thrSetGE lv bd3 ∧ ¬thrSetGE lv bd2 ∧ ¬thrSetGE lv bd1) := by
  have e : ∀ thr, thrSetGE lv thr ↔ thrHit lv thr = true :=
    fun thr => (thrHit_iff lv thr).symm
  refine ⟨rfl, ?_, ?_, ?_, ?_, ?_⟩ <;>
  · simp only [e, classify_exceed]
    cases hh : thrHit lv hist <;> cases h3 : thrHit lv bd3 <;>
      cases h2 : thrHit lv bd2 <;> cases h1 : thrHit lv bd1 <;> simp

/-! ## Claim C3: threshold distance -/

/-- C3, counterexample: the claim demands `round(level - tier1, 2)` for
tier 0 whenever `tier1` is present, "including 0.0"; the code's `elif bd1:`
treats `bd1 = 0.0` as falsy and returns `None`. -/
theorem c3_counterexample :
    calculate_alert_diff 0 (some 5) (some 0) none none none = none ∧
    calculate_alert_diff 0 (some 5) (some 0) none none none ≠ some (roundTo2 (5 - 0)) := by
  constructor
  · rfl
  · intro h; exact Option.noConfusion h

/-- C3 (amended): the distance is `round(level - t, 2)` with `t` the
historical/tier3/tier2/tier1 threshold for tiers 4/3/2/1; for tier 0 it is
`round(level - tier1, 2)` when `tier1` is present *and nonzero*, and "no
value" when `tier1` is absent or zero; an absent level or an absent selected
threshold always yields "no value" (the caught `TypeError`), never an
error. -/
theorem c3_diff_spec (lvl : ℕ) (v t : ℚ) (bd1 bd2 bd3 hist : Option ℚ) :
    calculate_alert_diff lvl none bd1 bd2 bd3 hist = none ∧
    calculate_alert_diff 4 (some v) bd1 bd2 bd3 (some t) = some (roundTo2 (v - t)) ∧
    calculate_alert_diff 4 (some v) bd1 bd2 bd3 none = none ∧
    calculate_alert_diff 3 (some v) bd1 bd2 (some t) hist = some (roundTo2 (v - t)) ∧
    calculate_alert_diff 3 (some v) bd1 bd2 none hist = none ∧
    calculate_alert_diff 2 (some v) bd1 (some t) bd3 hist = some (roundTo2 (v - t)) ∧
    calculate_alert_diff 2 (some v) bd1 none bd3 hist = none ∧
    calculate_alert_diff 1 (some v) (some t) bd2 bd3 hist = some (roundTo2 (v - t)) ∧
    calculate_alert_diff 1 (some v) none bd2 bd3 hist = none ∧
    (t ≠ 0 → calculate_alert_diff 0 (some v) (some t) bd2 bd3 hist = some (roundTo2 (v - t))) ∧
    calculate_alert_diff 0 (some v) (some 0) bd2 bd3 hist = none ∧
    calculate_alert_diff 0 (some v) none bd2 bd3 hist = none := by
  refine ⟨rfl, ?_, ?_, ?_, ?_, ?_, ?_, ?_, ?_, ?_, ?_, ?_⟩ <;>
    first
      | (intro ht; simp [calculate_alert_diff, ht])
      | simp [calculate_alert_diff]

/-- C3, witness: spec scenario — level 1.2 against a tier-1 threshold of 1.0
at tier 0 gives distance 0.20. -/
theorem c3_witness :
    calculate_alert_diff 0 (some (6 / 5)) (some 1) none none none = some (1 / 5) := by
  have h := (c3_diff_spec 0 (6 / 5) 1 none none none none).2.2.2.2.2.2.2.2.2.1 (by norm_num)
  rw [h, roundTo2, show (100 : ℚ) * (6 / 5 - 1) = ((20 : ℤ) : ℚ) by norm_num, round_intCast]
  norm_num

/-! ## Claim C7: fetch window planning -/

/-- C7: the planned end date is always `today`; with no prior timestamp the
start is `today - 6 days` (2024-11-20 gives the window 2024-11-14..20);
a prior latest date not after `today` becomes the start; a prior latest date
after `today` falls back to `today - 6 days`. -/
theorem c7_plan_window (today last : PyDate) :
    (planWindow none today).2 = today ∧
    (planWindow (some last) today).2 = today ∧
    (planWindow none today).1 = subDays 6 today ∧
    (dateLtB today last = false → planWindow (some last) today = (last, today)) ∧
    (dateLtB today last = true → planWindow (some last) today = (subDays 6 today, today)) ∧
    planWindow none ⟨2024, 11, 20⟩ = (⟨2024, 11, 14⟩, ⟨2024, 11, 20⟩) := by
  refine ⟨?_, ?_, ?_, ?_, ?_, ?_⟩
  · rfl
  · unfold planWindow
    split
    · rfl
    · split <;> rfl
  · rfl
  · intro h; simp [planWindow, h]
  · intro h; simp [planWindow, h]
  · decide

/-- C7, witness: spec resume scenario — prior latest date 2024-11-18 with
today 2024-11-20 plans the window 2024-11-18..2024-11-20. -/
theorem c7_witness :
    planWindow (some ⟨2024, 11, 18⟩) ⟨2024, 11, 20⟩ = (⟨2024, 11, 18⟩, ⟨2024, 11, 20⟩) :=
  (c7_plan_window ⟨2024, 11, 20⟩ ⟨2024, 11, 18⟩).2.2.2.1 (by decide)

/-! ## Claim C8: window filtering -/

/-- C8: an emitted river pair carries a parsed timestamp whose date is not
before the window start, and a parsed pair dated before the start is
dropped; an emitted lake record with a derivable timestamp is likewise not
before the start, one dated before the start is dropped, and a lake record
with no derivable timestamp is always retained, with a null timestamp. -/
theorem c8_window_filter (lbl : List Char) (current_year : ℤ) (nowMonth : ℕ)
    (startDate : PyDate) (ts : Option PyDateTime) :
    (∀ dt, riverWindowFilter lbl current_year nowMonth startDate = some dt →
      parse_river_dt lbl current_year nowMonth = some dt ∧
        dateLtB (dtDate dt) startDate = false) ∧
    (∀ dt, parse_river_dt lbl current_year nowMonth = some dt →
      dateLtB (dtDate dt) startDate = true →
      riverWindowFilter lbl current_year nowMonth startDate = none) ∧
    (∀ dt, lakeWindowFilter ts startDate = some (some dt) →
      dateLtB (dtDate dt) startDate = false) ∧
    (∀ dt, ts = some dt → dateLtB (dtDate dt) startDate = true →
      lakeWindowFilter ts startDate = none) ∧
    lakeWindowFilter none startDate = some none := by
  refine ⟨?_, ?_, ?_, ?_, rfl⟩
  · intro dt h
    unfold riverWindowFilter at h
    cases hp : parse_river_dt lbl current_year nowMonth with
    | none => rw [hp] at h; exact absurd h (by simp)
    | some dt' =>
      rw [hp] at h
      simp only [] at h
      by_cases hlt : dateLtB (dtDate dt') startDate = true
      · rw [if_pos hlt] at h; exact absurd h (by simp)
      · rw [if_neg hlt] at h
        obtain rfl : dt' = dt := Option.some.inj h
        exact ⟨rfl, Bool.not_eq_true _ ▸ hlt⟩
  · intro dt hp hlt
    unfold riverWindowFilter
    rw [hp]
    simp [hlt]
  · intro dt h
    cases ts with
    | none => simp [lakeWindowFilter] at h
    | some dt' =>
      unfold lakeWindowFilter at h
      simp only [] at h
      by_cases hlt : dateLtB (dtDate dt') startDate = true
      · rw [if_pos hlt] at h; exact absurd h (by simp)
      · rw [if_neg hlt] at h
        obtain rfl : dt' = dt := Option.some.inj (Option.some.inj h)
        exact Bool.not_eq_true _ ▸ hlt
  · intro dt hts hlt
    subst hts
    unfold lakeWindowFilter
    simp [hlt]

/-- C8, witness: a lake record dated 2024-11-01 against a window starting
2024-11-14 is dropped. -/
theorem c8_witness :
    lakeWindowFilter (some ⟨2024, 11, 1, 6, 0, 7⟩) ⟨2024, 11, 14⟩ = none :=
  (c8_window_filter [] 1 1 ⟨2024, 11, 14⟩ (some ⟨2024, 11, 1, 6, 0, 7⟩)).2.2.2.1
    ⟨2024, 11, 1, 6, 0, 7⟩ rfl (by decide)

/-! ## Claim C9: placeholder value tokens -/

/-- C9: in the comma-split river value sequence, any token that strips to a
placeholder (`"-"`, `"null"`, empty, `"NULL"`) parses to `None` — not to a
number (in particular not zero) and not to an exception — and conversely a
token that produced a numeric value was not a placeholder. -/
theorem c9_placeholder (floatFn : List Char → Option ℚ) (raw : List Char) :
    (∀ tok ∈ raw.splitOn ',', placeholderTok (pyStrip tok) = true →
      parseRiverValueTok floatFn tok = some none) ∧
    (∀ tok q, parseRiverValueTok floatFn tok = some (some q) →
      placeholderTok (pyStrip tok) = false) ∧
    riverValues floatFn raw = (raw.splitOn ',').map (parseRiverValueTok floatFn) := by
  refine ⟨?_, ?_, rfl⟩
  · intro tok _ h
    simp [parseRiverValueTok, h]
  · intro tok q h
    cases hp : placeholderTok (pyStrip tok)
    · rfl
    · simp [parseRiverValueTok, hp] at h

/-- C9, witness: the token `"-"` of the sequence `"1.2,-"` is parsed as
`None` even under a float parser that fails on everything. -/
theorem c9_witness :
    parseRiverValueTok (fun _ => none) ['-'] = some none :=
  (c9_placeholder (fun _ => none) ['1', '.', '2', ',', '-']).1 ['-'] (by decide) (by decide)

/-! ## Claim C10: `get_first_num` -/

/-- C10: `get_first_num` returns the parsed value of the first
comma-separated component only when it is strictly positive; an absent or
falsy (empty) field, an unparseable first component, and a parsed value
`≤ 0` all yield `None` — hence a threshold the provider reports as `0`
behaves downstream exactly like an absent threshold. -/
theorem c10_get_first_num (floatFn : List Char → Option ℚ) (s : List Char) (val : ℚ)
    (level v : Option ℚ) (b2 b3 h4 : Option ℚ) (tier : ℕ) :
    get_first_num floatFn none = none ∧
    get_first_num floatFn (some []) = none ∧
    (s ≠ [] → floatFn ((s.splitOn ',').headI) = some val → 0 < val →
      get_first_num floatFn (some s) = some val) ∧
    (s ≠ [] → floatFn ((s.splitOn ',').headI) = some val → val ≤ 0 →
      get_first_num floatFn (some s) = none) ∧
    (s ≠ [] → floatFn ((s.splitOn ',').headI) = none →
      get_first_num floatFn (some s) = none) ∧
    (s ≠ [] → floatFn ((s.splitOn ',').headI) = some 0 →
      classify_exceed level (get_first_num floatFn (some s)) b2 b3 h4 =
        classify_exceed level none b2 b3 h4 ∧
      calculate_alert_diff tier v (get_first_num floatFn (some s)) b2 b3 h4 =
        calculate_alert_diff tier v none b2 b3 h4) := by
  refine ⟨rfl, rfl, ?_, ?_, ?_, ?_⟩
  · intro hs hf hpos
    simp [get_first_num, hs, hf, hpos]
  · intro hs hf hle
    simp [get_first_num, hs, hf, not_lt.mpr hle]
  · intro hs hf
    simp [get_first_num, hs, hf]
  · intro hs hf
    have hz : get_first_num floatFn (some s) = none := by
      simp [get_first_num, hs, hf]
    rw [hz]
    exact ⟨rfl, rfl⟩

/-- C10, witness: a field whose first component parses to `0` yields `None`
and classifies exactly as an absent threshold. -/
theorem c10_witness :
    get_first_num (fun _ => some 0) (some ['0']) = none ∧
    classify_exceed (some 5) (get_first_num (fun _ => some 0) (some ['0'])) none none none =
      classify_exceed (some 5) none none none none := by
  have h := c10_get_first_num (fun _ => some 0) ['0'] 0 (some 5) none none none none 0
  exact ⟨h.2.2.2.1 (by decide) rfl le_rfl, (h.2.2.2.2.2 (by decide) rfl).1⟩

/-! ## Label construction and regex-search lemmas for claims C4–C6 -/

lemma isDig_digitChar : ∀ k < 10, isDig (Nat.digitChar k) = true := by decide

lemma dval_digitChar : ∀ k < 10, dval (Nat.digitChar k) = k := by decide

lemma isWs_digitChar : ∀ k < 10, isWs (Nat.digitChar k) = false := by decide

lemma render_ne_nil (n : ℕ) : render n ≠ [] := by
  unfold render; split <;> simp

lemma firstSome_cons_some {α β : Type} (f : α → Option β) (a : α) (tl : List α) (b : β)
    (hf : f a = some b) : firstSome f (a :: tl) = some b := by
  simp [firstSome, hf]

lemma firstSome_eq_none {α β : Type} (f : α → Option β) (l : List α)
    (h : ∀ a ∈ l, f a = none) : firstSome f l = none := by
  induction l with
  | nil => rfl
  | cons a as ih =>
    simp only [firstSome, h a (List.mem_cons_self a as)]
    exact ih (fun x hx => h x (List.mem_cons_of_mem a hx))

/-- The candidate list of `(\d{1,2})` on `render n ++ rest` starts with the
full two-or-one digit parse `(n, rest)` whenever the character after the
rendered digits is not itself a digit. -/
lemma numCands_render (n : ℕ) (hn : n ≤ 99) (rest : List Char)
    (hrest : ∀ c, rest.head? = some c → isDig c = false) :
    ∃ tl, numCands (render n ++ rest) = (n, rest) :: tl := by
  by_cases h10 : n < 10
  · refine ⟨[], ?_⟩
    cases rest with
    | nil => simp [render, h10, numCands, isDig_digitChar n h10, dval_digitChar n h10]
    | cons r rs =>
      have hr : isDig r = false := hrest r rfl
      simp [render, h10, numCands, isDig_digitChar n h10, dval_digitChar n h10, hr]
  · have hq : n / 10 < 10 := by omega
    have hr' : n % 10 < 10 := Nat.mod_lt _ (by norm_num)
    refine ⟨[(n / 10, Nat.digitChar (n % 10) :: rest)], ?_⟩
    have hsum : 10 * (n / 10) + n % 10 = n := Nat.div_add_mod n 10
    simp [render, h10, numCands, isDig_digitChar _ hq, isDig_digitChar _ hr',
      dval_digitChar _ hq, dval_digitChar _ hr', hsum]

lemma dropWhile_isWs_render (n : ℕ) (hn : n ≤ 99) (rest : List Char) :
    (render n ++ rest).dropWhile isWs = render n ++ rest := by
  by_cases h10 : n < 10
  · have hr : render n = [Nat.digitChar n] := by simp [render, h10]
    rw [hr, List.cons_append, List.dropWhile_cons, isWs_digitChar n h10]
    simp
  · have hq : n / 10 < 10 := by omega
    have hr : render n = [Nat.digitChar (n / 10), Nat.digitChar (n % 10)] := by
      simp [render, h10]
    rw [hr, List.cons_append, List.dropWhile_cons, isWs_digitChar _ hq]
    simp

lemma matchAAt_labelA (h d m : ℕ) (hh : h ≤ 99) (hd : d ≤ 99) (hm : m ≤ 99) :
    matchAAt (labelA h d m) = some (h, d, m) := by
  unfold matchAAt labelA
  obtain ⟨tl1, htl1⟩ := numCands_render h hh ('h' :: ' ' :: (render d ++ ('/' :: render m)))
    (by intro c hc; rw [List.head?_cons, Option.some.injEq] at hc; rw [← hc]; decide)
  rw [htl1]
  apply firstSome_cons_some
  show afterHourA h ('h' :: ' ' :: (render d ++ ('/' :: render m))) = some (h, d, m)
  simp only [afterHourA, if_true]
  have hws : consumeWs1 (' ' :: (render d ++ ('/' :: render m)))
      = some (render d ++ ('/' :: render m)) := by
    simp only [consumeWs1]
    rw [if_pos (by decide : isWs ' ' = true), dropWhile_isWs_render d hd]
  rw [hws]
  show firstSome (fun q => afterDayA h q.1 q.2) (numCands (render d ++ ('/' :: render m)))
      = some (h, d, m)
  obtain ⟨tl2, htl2⟩ := numCands_render d hd ('/' :: render m)
    (by intro c hc; rw [List.head?_cons, Option.some.injEq] at hc; rw [← hc]; decide)
  rw [htl2]
  apply firstSome_cons_some
  show afterDayA h d ('/' :: render m) = some (h, d, m)
  simp only [afterDayA, if_true]
  obtain ⟨tl3, htl3⟩ := numCands_render m hm []
    (by intro c hc; exact absurd hc (by simp))
  rw [← List.append_nil (render m), htl3]
  exact firstSome_cons_some _ _ _ _ rfl

lemma matchBAt_labelB (h mi d : ℕ) (hh : h ≤ 99) (hmi : mi ≤ 99) (hd : d ≤ 99) :
    matchBAt (labelB h mi d) = some (h, mi, d) := by
  unfold matchBAt labelB
  obtain ⟨tl1, htl1⟩ := numCands_render h hh ('h' :: (render mi ++ ('/' :: render d)))
    (by intro c hc; rw [List.head?_cons, Option.some.injEq] at hc; rw [← hc]; decide)
  rw [htl1]
  apply firstSome_cons_some
  show afterHourB h ('h' :: (render mi ++ ('/' :: render d))) = some (h, mi, d)
  simp only [afterHourB, if_true]
  obtain ⟨tl2, htl2⟩ := numCands_render mi hmi ('/' :: render d)
    (by intro c hc; rw [List.head?_cons, Option.some.injEq] at hc; rw [← hc]; decide)
  rw [htl2]
  apply firstSome_cons_some
  show afterMinB h mi ('/' :: render d) = some (h, mi, d)
  simp only [afterMinB, if_true]
  obtain ⟨tl3, htl3⟩ := numCands_render d hd []
    (by intro c hc; exact absurd hc (by simp))
  rw [← List.append_nil (render d), htl3]
  exact firstSome_cons_some _ _ _ _ rfl

lemma searchA_of_matchAAt {l : List Char} {g : ℕ × ℕ × ℕ} (hl : matchAAt l = some g) :
    searchA l = some g := by
  cases l with
  | nil => simp [matchAAt, numCands, firstSome] at hl
  | cons c cs => unfold searchA; rw [hl]

lemma searchB_of_matchBAt {l : List Char} {g : ℕ × ℕ × ℕ} (hl : matchBAt l = some g) :
    searchB l = some g := by
  cases l with
  | nil => simp [matchBAt, numCands, firstSome] at hl
  | cons c cs => unfold searchB; rw [hl]

lemma pyStrip_eq_self (l : List Char)
    (h1 : ∀ c, l.head? = some c → isWs c = false)
    (h2 : ∀ c, l.getLast? = some c → isWs c = false) :
    pyStrip l = l := by
  have d1 : l.dropWhile isWs = l := by
    cases l with
    | nil => rfl
    | cons a as =>
      rw [List.dropWhile_cons, h1 a rfl]
      simp
  unfold pyStrip
  rw [d1]
  have d2 : l.reverse.dropWhile isWs = l.reverse := by
    cases hr : l.reverse with
    | nil => rfl
    | cons a as =>
      have hga : l.getLast? = some a := by
        rw [← List.head?_reverse, hr, List.head?_cons]
      rw [List.dropWhile_cons, h2 a hga]
      simp
  rw [d2, List.reverse_reverse]

lemma head_render_append (n : ℕ) (hn : n ≤ 99) (rest : List Char) :
    ∃ k, k < 10 ∧ (render n ++ rest).head? = some (Nat.digitChar k) := by
  by_cases h10 : n < 10
  · exact ⟨n, h10, by simp [render, h10]⟩
  · exact ⟨n / 10, by omega, by simp [render, h10]⟩

lemma getLast_append_render (pre : List Char) (n : ℕ) (_hn : n ≤ 99) :
    ∃ k, k < 10 ∧ (pre ++ render n).getLast? = some (Nat.digitChar k) := by
  rw [← List.head?_reverse, List.reverse_append]
  by_cases h10 : n < 10
  · refine ⟨n, h10, ?_⟩
    have hr : render n = [Nat.digitChar n] := by simp [render, h10]
    rw [hr]
    simp
  · refine ⟨n % 10, Nat.mod_lt _ (by norm_num), ?_⟩
    have hr : render n = [Nat.digitChar (n / 10), Nat.digitChar (n % 10)] := by
      simp [render, h10]
    rw [hr]
    simp

lemma pyStrip_labelA (h d m : ℕ) (hh : h ≤ 99) (hm : m ≤ 99) :
    pyStrip (labelA h d m) = labelA h d m := by
  apply pyStrip_eq_self
  · intro c hc
    obtain ⟨k, hk, hhd⟩ := head_render_append h hh ('h' :: ' ' :: (render d ++ ('/' :: render m)))
    rw [labelA, hhd, Option.some.injEq] at hc
    rw [← hc]
    exact isWs_digitChar k hk
  · intro c hc
    have hsplit : labelA h d m
        = (render h ++ ('h' :: ' ' :: render d) ++ ['/']) ++ render m := by
      simp [labelA]
    obtain ⟨k, hk, hlast⟩ :=
      getLast_append_render ((render h ++ ('h' :: ' ' :: render d) ++ ['/'])) m hm
    rw [hsplit, hlast, Option.some.injEq] at hc
    rw [← hc]
    exact isWs_digitChar k hk

lemma pyStrip_labelB (h mi d : ℕ) (hh : h ≤ 99) (hd : d ≤ 99) :
    pyStrip (labelB h mi d) = labelB h mi d := by
  apply pyStrip_eq_self
  · intro c hc
    obtain ⟨k, hk, hhd⟩ := head_render_append h hh ('h' :: (render mi ++ ('/' :: render d)))
    rw [labelB, hhd, Option.some.injEq] at hc
    rw [← hc]
    exact isWs_digitChar k hk
  · intro c hc
    have hsplit : labelB h mi d
        = (render h ++ ('h' :: render mi) ++ ['/']) ++ render d := by
      simp [labelB]
    obtain ⟨k, hk, hlast⟩ :=
      getLast_append_render ((render h ++ ('h' :: render mi) ++ ['/'])) d hd
    rw [hsplit, hlast, Option.some.injEq] at hc
    rw [← hc]
    exact isWs_digitChar k hk

lemma mem_render_noWs (n : ℕ) (hn : n ≤ 99) : ∀ c ∈ render n, isWs c = false := by
  intro c hc
  by_cases h10 : n < 10
  · simp [render, h10] at hc
    rw [hc]
    exact isWs_digitChar n h10
  · simp [render, h10] at hc
    rcases hc with hc | hc <;> rw [hc]
    · exact isWs_digitChar _ (by omega)
    · exact isWs_digitChar _ (Nat.mod_lt _ (by norm_num))

lemma noWs_labelB (h mi d : ℕ) (hh : h ≤ 99) (hmi : mi ≤ 99) (hd : d ≤ 99) :
    ∀ c ∈ labelB h mi d, isWs c = false := by
  intro c hc
  simp only [labelB, List.mem_append, List.mem_cons] at hc
  rcases hc with hc | hc | hc | hc | hc
  · exact mem_render_noWs h hh c hc
  · rw [hc]; decide
  · exact mem_render_noWs mi hmi c hc
  · rw [hc]; decide
  · exact mem_render_noWs d hd c hc

lemma numCands_rest_mem (cs : List Char) (p : ℕ × List Char) (hp : p ∈ numCands cs) :
    ∀ c ∈ p.2, c ∈ cs := by
  intro c hc
  cases cs with
  | nil => simp [numCands] at hp
  | cons c1 cs' =>
    cases cs' with
    | nil =>
      by_cases h1 : isDig c1 = true
      · simp [numCands, h1] at hp
        rw [hp] at hc
        simp at hc
      · simp [numCands, h1] at hp
    | cons c2 rest =>
      by_cases h1 : isDig c1 = true
      · by_cases h2 : isDig c2 = true
        · simp [numCands, h1, h2] at hp
          rcases hp with hp | hp <;> rw [hp] at hc
          · exact List.mem_cons_of_mem c1 (List.mem_cons_of_mem c2 hc)
          · exact List.mem_cons_of_mem c1 hc
        · simp [numCands, h1, h2] at hp
          rw [hp] at hc
          exact List.mem_cons_of_mem c1 hc
      · simp [numCands, h1] at hp

lemma afterHourA_none_noWs (hour : ℕ) (cs1 : List Char)
    (hws : ∀ c ∈ cs1, isWs c = false) : afterHourA hour cs1 = none := by
  cases cs1 with
  | nil => rfl
  | cons c cs2 =>
    simp only [afterHourA]
    by_cases hc : c = 'h'
    · rw [if_pos hc]
      cases cs2 with
      | nil => rfl
      | cons w ws =>
        have hw : isWs w = false := hws w (List.mem_cons_of_mem c (List.mem_cons_self w ws))
        simp [consumeWs1, hw]
    · rw [if_neg hc]

lemma matchAAt_none_noWs (cs : List Char) (hws : ∀ c ∈ cs, isWs c = false) :
    matchAAt cs = none := by
  unfold matchAAt
  apply firstSome_eq_none
  intro p hp
  exact afterHourA_none_noWs p.1 p.2 (fun c hc => hws c (numCands_rest_mem cs p hp c hc))

lemma searchA_none_noWs (l : List Char) (hws : ∀ c ∈ l, isWs c = false) :
    searchA l = none := by
  induction l with
  | nil => rfl
  | cons c cs ih =>
    unfold searchA
    rw [matchAAt_none_noWs _ hws]
    exact ih (fun x hx => hws x (List.mem_cons_of_mem c hx))

/-! ## Claim C5: Format A semantics -/

/-- C5: for every valid Format-A label `"{h}h {d}/{m}"` denoting a
constructible calendar date, `parse_river_dt` returns a timestamp with the
label's hour, day and month, minute 0, in the fixed UTC+7 civil timezone,
with year equal to the reference year — except that a December label parsed
while the current local month is January uses the preceding year
(`yearAdj`). -/
theorem c5_formatA (h d m : ℕ) (current_year : ℤ) (nowMonth : ℕ)
    (hh : h ≤ 23) (hm1 : 1 ≤ m) (hm2 : m ≤ 12) (hd1 : 1 ≤ d)
    (hd2 : d ≤ daysInMonth (yearAdj current_year m nowMonth) m)
    (hy1 : 1 ≤ yearAdj current_year m nowMonth)
    (hy2 : yearAdj current_year m nowMonth ≤ 9999) :
    parse_river_dt (labelA h d m) current_year nowMonth =
      some ⟨yearAdj current_year m nowMonth, m, d, h, 0, 7⟩ := by
  have hh99 : h ≤ 99 := by omega
  have hd31 : daysInMonth (yearAdj current_year m nowMonth) m ≤ 31 := by
    unfold daysInMonth
    split_ifs <;> norm_num
  have hd99 : d ≤ 99 := by omega
  have hm99 : m ≤ 99 := by omega
  have hA : riverCaseA (labelA h d m) current_year nowMonth
      = some ⟨yearAdj current_year m nowMonth, m, d, h, 0, 7⟩ := by
    unfold riverCaseA
    rw [searchA_of_matchAAt (matchAAt_labelA h d m hh99 hd99 hm99)]
    show mkDatetime (yearAdj current_year m nowMonth) m d h 0
      = some ⟨yearAdj current_year m nowMonth, m, d, h, 0, 7⟩
    unfold mkDatetime
    rw [if_pos ⟨hy1, hy2, hm1, hm2, hd1, hd2, hh, by norm_num⟩]
  unfold parse_river_dt
  rw [if_neg (by simp [labelA]), pyStrip_labelA h d m hh99 hm99, hA]

/-- C5, witness: the label `"0h 15/11"` with reference year 2024 and current
month 11 parses to 2024-11-15 00:00 (+07:00). -/
theorem c5_witness :
    parse_river_dt (labelA 0 15 11) 2024 11 = some ⟨2024, 11, 15, 0, 0, 7⟩ := by
  have h := c5_formatA 0 15 11 2024 11 (by norm_num) (by norm_num) (by norm_num)
    (by norm_num) (by decide) (by decide) (by decide)
  simpa [yearAdj] using h

/-! ## Claim C6: Format B semantics -/

/-- C6: for every valid Format-B label `"{h}h{mi}/{d}"` (no whitespace, so
it can never match Format A) denoting a constructible date, `parse_river_dt`
returns the label's hour, minute and day with the month taken from the
caller's current local month and the year equal to the literal reference
year (no rollover adjustment), in the fixed UTC+7 civil timezone. -/
theorem c6_formatB (h mi d : ℕ) (current_year : ℤ) (nowMonth : ℕ)
    (hh : h ≤ 23) (hmi : mi ≤ 59) (hd1 : 1 ≤ d)
    (hd2 : d ≤ daysInMonth current_year nowMonth)
    (hnm1 : 1 ≤ nowMonth) (hnm2 : nowMonth ≤ 12)
    (hy1 : 1 ≤ current_year) (hy2 : current_year ≤ 9999) :
    parse_river_dt (labelB h mi d) current_year nowMonth =
      some ⟨current_year, nowMonth, d, h, mi, 7⟩ := by
  have hh99 : h ≤ 99 := by omega
  have hmi99 : mi ≤ 99 := by omega
  have hd31 : daysInMonth current_year nowMonth ≤ 31 := by
    unfold daysInMonth
    split_ifs <;> norm_num
  have hd99 : d ≤ 99 := by omega
  have hA : riverCaseA (labelB h mi d) current_year nowMonth = none := by
    unfold riverCaseA
    rw [searchA_none_noWs _ (noWs_labelB h mi d hh99 hmi99 hd99)]
  have hB : riverCaseB (labelB h mi d) current_year nowMonth
      = some ⟨current_year, nowMonth, d, h, mi, 7⟩ := by
    unfold riverCaseB
    rw [searchB_of_matchBAt (matchBAt_labelB h mi d hh99 hmi99 hd99)]
    show mkDatetime current_year nowMonth d h mi
      = some ⟨current_year, nowMonth, d, h, mi, 7⟩
    unfold mkDatetime
    rw [if_pos ⟨hy1, hy2, hnm1, hnm2, hd1, hd2, hh, hmi⟩]
  unfold parse_river_dt
  rw [if_neg (by simp [labelB]), pyStrip_labelB h mi d hh99 hd99, hA]
  exact hB

/-- C6, witness: the label `"7h30/12"` with reference year 2024 and current
month 12 parses to 2024-12-12 07:30 (+07:00). -/
theorem c6_witness :
    parse_river_dt (labelB 7 30 12) 2024 12 = some ⟨2024, 12, 12, 7, 30, 7⟩ :=
  c6_formatB 7 30 12 2024 12 (by norm_num) (by norm_num) (by norm_num)
    (by decide) (by norm_num) (by norm_num) (by decide) (by decide)

/-! ## Claim C4: parse order and totality -/

/-- C4, counterexample: the claim says Format B is attempted only when
Format A *fails to match*, so a Format-A-matching label would be decided by
Format A alone (here: no result, since 31 February is unconstructible).  In
the code the caught `ValueError` falls through to Format B, which returns
12th-of-current-month 01:30 — a minute of 30 that no Format-A decision
could produce. -/
theorem c4_counterexample :
    searchA (pyStrip lblAX) = some (2, 31, 2) ∧
    riverCaseA (pyStrip lblAX) 2024 5 = none ∧
    parse_river_dt lblAX 2024 5 = some ⟨2024, 5, 12, 1, 30, 7⟩ := by
  refine ⟨by rfl, by rfl, by rfl⟩

/-- C4 (amended): Format A is attempted first and wins whenever it matches
*and* its date is constructible; Format B decides exactly when Case A
produces nothing — because pattern A did not match or because its date was
unconstructible; and a label matching neither pattern yields "no value":
the parser is total and never propagates an exception. -/
theorem c4_parse_order (lbl : List Char) (current_year : ℤ) (nowMonth : ℕ) :
    (∀ dt, riverCaseA (pyStrip lbl) current_year nowMonth = some dt →
      parse_river_dt lbl current_year nowMonth = some dt) ∧
    (riverCaseA (pyStrip lbl) current_year nowMonth = none →
      parse_river_dt lbl current_year nowMonth
        = riverCaseB (pyStrip lbl) current_year nowMonth) ∧
    (searchA (pyStrip lbl) = none → searchB (pyStrip lbl) = none →
      parse_river_dt lbl current_year nowMonth = none) := by
  by_cases hl : lbl = []
  · subst hl
    refine ⟨?_, ?_, ?_⟩
    · intro dt hdt
      exact absurd hdt (by simp [pyStrip, riverCaseA, searchA])
    · intro _
      rfl
    · intro _ _
      rfl
  · refine ⟨?_, ?_, ?_⟩
    · intro dt hdt
      unfold parse_river_dt
      rw [if_neg hl, hdt]
    · intro hA
      unfold parse_river_dt
      rw [if_neg hl, hA]
    · intro hA hB
      have h1 : riverCaseA (pyStrip lbl) current_year nowMonth = none := by
        unfold riverCaseA
        rw [hA]
      have h2 : riverCaseB (pyStrip lbl) current_year nowMonth = none := by
        unfold riverCaseB
        rw [hB]
      unfold parse_river_dt
      rw [if_neg hl, h1]
      exact h2

/-- C4, witness: the label `"5h 31/2"` matches Format A with the
unconstructible 31 February, does not match Format B, and parses to "no
value" rather than erroring. -/
theorem c4_witness :
    parse_river_dt ['5', 'h', ' ', '3', '1', '/', '2'] 2024 5 = none := by
  have h := (c4_parse_order ['5', 'h', ' ', '3', '1', '/', '2'] 2024 5).2.1 (by rfl)
  rw [h]
  rfl

/-! ## Claim C1: the incremental merge -/

lemma keepLastDedup_subset (l : List Row) : keepLastDedup l ⊆ l := by
  induction l with
  | nil => simp [keepLastDedup]
  | cons r rs ih =>
    unfold keepLastDedup
    split
    · exact ih.trans (List.subset_cons_self r rs)
    · intro x hx
      rcases List.mem_cons.mp hx with hx | hx
      · rw [hx]; exact List.mem_cons_self r rs
      · exact List.mem_cons_of_mem r (ih hx)

lemma keepLastDedup_keys (l : List Row) (k : String × String × String) :
    k ∈ l.map rowKey ↔ k ∈ (keepLastDedup l).map rowKey := by
  induction l with
  | nil => simp [keepLastDedup]
  | cons r rs ih =>
    unfold keepLastDedup
    split
    · rename_i hex
      simp only [List.map_cons, List.mem_cons]
      constructor
      · rintro (h | h)
        · obtain ⟨s, hs, hks⟩ := hex
          exact ih.mp (h ▸ hks ▸ List.mem_map_of_mem rowKey hs)
        · exact ih.mp h
      · intro h
        exact Or.inr (ih.mpr h)
    · simp only [List.map_cons, List.mem_cons]
      constructor
      · rintro (h | h)
        · exact Or.inl h
        · exact Or.inr (ih.mp h)
      · rintro (h | h)
        · exact Or.inl h
        · exact Or.inr (ih.mpr h)

lemma keepLastDedup_nodup (l : List Row) : ((keepLastDedup l).map rowKey).Nodup := by
  induction l with
  | nil => simp [keepLastDedup]
  | cons r rs ih =>
    unfold keepLastDedup
    split
    · exact ih
    · rename_i hex
      simp only [List.map_cons, List.nodup_cons]
      refine ⟨?_, ih⟩
      intro hmem
      obtain ⟨s, hs, hks⟩ := List.mem_map.mp ((keepLastDedup_keys rs _).mpr hmem)
      exact hex ⟨s, hs, hks⟩

lemma keepLastDedup_append_right (a b : List Row) (r : Row)
    (hr : r ∈ keepLastDedup (a ++ b)) (hk : rowKey r ∈ b.map rowKey) : r ∈ b := by
  induction a with
  | nil => exact keepLastDedup_subset b hr
  | cons x a' ih =>
    rw [List.cons_append] at hr
    unfold keepLastDedup at hr
    split at hr
    · exact ih hr
    · rename_i hex
      rcases List.mem_cons.mp hr with hx | hx
      · obtain ⟨s, hs, hks⟩ := List.mem_map.mp (hx ▸ hk)
        exact absurd ⟨s, List.mem_append_right a' hs, hks⟩ hex
      · exact ih hx

/-- C1, counterexample: the key uniqueness consequent fails in the
no-prior-dataset branch, which performs no deduplication — an incoming
batch that itself repeats a `(type, id, timestamp)` key is written with
the duplicate intact. -/
theorem c1_counterexample :
    ¬ ((mergeDataset none [rDup, rDup]).map rowKey).Nodup := by
  have h : mergeDataset none [rDup, rDup] = [rDup, rDup] := by
    show sortRows [rDup, rDup] = [rDup, rDup]
    unfold sortRows
    simp [List.insertionSort, List.orderedInsert, leRow]
  rw [h]
  simp

/-- C1 (amended): the merge with no prior dataset is the incoming batch
re-sorted by `(type, basin, name, timestamp)` (so duplicate keys inside the
batch survive, and key uniqueness holds there only if the batch itself has
none); the merge with a prior dataset concatenates existing-then-incoming,
deduplicates on `(type, id, timestamp)` keeping the last occurrence — so a
key present in incoming is only ever represented by an incoming row — and
re-sorts; its result has `(type, id, timestamp)` as a unique key, and every
key of either input survives. -/
theorem c1_merge_correct (ex inc : List Row) (k : String × String × String) :
    (mergeDataset none inc).Perm inc ∧
    List.Sorted leRow (mergeDataset none inc) ∧
    List.Sorted leRow (mergeDataset (some ex) inc) ∧
    ((mergeDataset (some ex) inc).map rowKey).Nodup ∧
    ((inc.map rowKey).Nodup → ((mergeDataset none inc).map rowKey).Nodup) ∧
    (k ∈ inc.map rowKey → ∀ r ∈ mergeDataset (some ex) inc, rowKey r = k → r ∈ inc) ∧
    (k ∈ (ex ++ inc).map rowKey → k ∈ (mergeDataset (some ex) inc).map rowKey) := by
  have hperm : ∀ l : List Row, (sortRows l).Perm l :=
    fun l => List.perm_insertionSort leRow l
  refine ⟨hperm inc, ?_, ?_, ?_, ?_, ?_, ?_⟩
  · exact List.sorted_insertionSort leRow inc
  · exact List.sorted_insertionSort leRow _
  · have h1 := keepLastDedup_nodup (ex ++ sortRows inc)
    exact (((hperm (keepLastDedup (ex ++ sortRows inc))).map rowKey).nodup_iff).mpr h1
  · intro hnd
    exact (((hperm inc).map rowKey).nodup_iff).mpr hnd
  · intro hk r hr hkr
    have hr1 : r ∈ keepLastDedup (ex ++ sortRows inc) := (hperm _).subset hr
    have hk' : rowKey r ∈ (sortRows inc).map rowKey := by
      rw [hkr]
      exact (((hperm inc).map rowKey).mem_iff).mpr hk
    exact (hperm inc).subset (keepLastDedup_append_right ex (sortRows inc) r hr1 hk')
  · intro hk
    have hk1 : k ∈ (ex ++ sortRows inc).map rowKey := by
      rw [List.map_append] at hk ⊢
      rcases List.mem_append.mp hk with h | h
      · exact List.mem_append_left _ h
      · exact List.mem_append_right _ (((hperm inc).map rowKey).mem_iff.mpr h)
    have hk2 := (keepLastDedup_keys (ex ++ sortRows inc) k).mp hk1
    exact ((hperm (keepLastDedup (ex ++ sortRows inc))).map rowKey).mem_iff.mpr hk2

/-- C1, witness: merging `[rOld]` with incoming `[rNew]` on the shared key
keeps the incoming value only — the existing row is gone. -/
theorem c1_witness : rOld ∉ mergeDataset (some [rOld]) [rNew] := by
  intro hmem
  have h := (c1_merge_correct [rOld] [rNew] (rowKey rOld)).2.2.2.2.2.1
  have hk : rowKey rOld ∈ [rNew].map rowKey := by decide
  have hin : rOld ∈ [rNew] := h hk rOld hmem rfl
  simp [rOld, rNew] at hin
